import Mathlib

/-!
Shallow embedding of `solana-validator-ha` (Go) in Lean 4, covering the
gossip peer-state view (`internal/gossip/state.go`), the validator
configuration (`internal/config/validator.go`), and role command template
rendering (modelled from the spec where the source file is absent).

Conventions of the embedding:
* Go `map[string]V` values are represented as association lists
  `List (String × V)`; Go map assignment `m[k] = v` is `insertAL`
  (replace the binding for `k`, keep all others); Go map iteration is
  iteration over the list (Go's iteration order is unspecified, the list
  order is one admissible order).
* `time.Time` is an `Int` (nanoseconds since epoch); `time.Duration` is an
  `Int`; `time.Since t` at instant `now` is `now - t`.  All `time.Now()`
  calls inside one `Refresh` are modelled as the single instant `now` at
  which the refresh runs.
* Fallible calls are `Except`/`Option` parameters: the cluster RPC result
  is passed to `Refresh` as an `Except String (List ClusterNode)`, the
  HTTP fetch of a public-IP service is a function `String → Option String`
  (`none` covers both a failed `http.Get` and a failed body read, which the
  Go code treats identically: log and continue).
-/

namespace SolanaValidatorHA

/-! ## Association-list operations standing for Go map operations -/

/-- Go map assignment `m[k] = v`: replace the binding for `k` if present,
otherwise append it. -/
def insertAL {α : Type} (l : List (String × α)) (k : String) (v : α) :
    List (String × α) :=
  match l with
  | [] => [(k, v)]
  | (k', v') :: rest =>
    if k' = k then (k, v) :: rest else (k', v') :: insertAL rest k v

theorem mem_insertAL {α : Type} {l : List (String × α)} {k : String} {v : α}
    {e : String × α} (h : e ∈ insertAL l k v) : e = (k, v) ∨ e ∈ l := by
  induction l with
  | nil => simpa [insertAL] using h
  | cons hd tl ih =>
    by_cases hk : hd.1 = k
    · rcases hd with ⟨k', v'⟩
      simp only [insertAL, if_pos hk, List.mem_cons] at h
      rcases h with h | h
      · exact Or.inl h
      · exact Or.inr (List.mem_cons_of_mem _ h)
    · rcases hd with ⟨k', v'⟩
      simp only [insertAL, if_neg hk, List.mem_cons] at h
      rcases h with h | h
      · exact Or.inr (by simp [h])
      · rcases ih h with h' | h'
        · exact Or.inl h'
        · exact Or.inr (List.mem_cons_of_mem _ h')

theorem mem_insertAL_self {α : Type} (l : List (String × α)) (k : String)
    (v : α) : (k, v) ∈ insertAL l k v := by
  induction l with
  | nil => simp [insertAL]
  | cons hd tl ih =>
    rcases hd with ⟨k', v'⟩
    by_cases hk : k' = k
    · simp [insertAL, hk]
    · simp only [insertAL, if_neg hk, List.mem_cons]
      exact Or.inr ih

theorem mem_insertAL_of_mem_ne {α : Type} {l : List (String × α)}
    {k : String} {v : α} {e : String × α} (hne : e.1 ≠ k) (h : e ∈ l) :
    e ∈ insertAL l k v := by
  induction l with
  | nil => cases h
  | cons hd tl ih =>
    rcases hd with ⟨k', v'⟩
    by_cases hk : k' = k
    · rcases List.mem_cons.1 h with h' | h'
      · exact absurd (h' ▸ hk) hne
      · simp only [insertAL, if_pos hk, List.mem_cons]
        exact Or.inr h'
    · rcases List.mem_cons.1 h with h' | h'
      · simp [insertAL, hk, h']
      · simp only [insertAL, if_neg hk, List.mem_cons]
        exact Or.inr (ih h')

theorem keys_insertAL {α : Type} (l : List (String × α)) (k : String)
    (v : α) {x : String} (hx : x ∈ (insertAL l k v).map Prod.fst) :
    x = k ∨ x ∈ l.map Prod.fst := by
  rcases List.mem_map.1 hx with ⟨e, he, rfl⟩
  rcases mem_insertAL he with h | h
  · exact Or.inl (by rw [h])
  · exact Or.inr (List.mem_map_of_mem _ h)

theorem keys_nodup_insertAL {α : Type} {l : List (String × α)} (k : String)
    (v : α) (h : (l.map Prod.fst).Nodup) :
    ((insertAL l k v).map Prod.fst).Nodup := by
  induction l with
  | nil => simp [insertAL]
  | cons hd tl ih =>
    rcases hd with ⟨k', v'⟩
    simp only [List.map_cons, List.nodup_cons] at h
    by_cases hk : k' = k
    · subst hk
      simpa [insertAL, List.nodup_cons] using h
    · simp only [insertAL, if_neg hk, List.map_cons, List.nodup_cons]
      refine ⟨fun hmem => ?_, ih h.2⟩
      rcases keys_insertAL tl k v hmem with h' | h'
      · exact hk h'
      · exact h.1 h'

/-! ## Data model from `internal/config` (peers) and `internal/gossip/state.go` -/

/-- `config.Peer` (internal/config): a configured failover peer. -/
structure Peer where
  Name : String
  IP : String
deriving Repr, DecidableEq

/-- `config.Peers = map[string]Peer`, keyed by peer name. -/
abbrev Peers : Type := List (String × Peer)

/-- `Peers.GetIPs`: the IPs of all configured peers. -/
def Peers.GetIPs (ps : Peers) : List String :=
  ps.map (fun np => np.2.IP)

/-- One element of the `getClusterNodes` RPC response: only the fields the
code consumes (`Pubkey.String()` and `*node.Gossip`, a `"host:port"`
endpoint). -/
structure ClusterNode where
  Pubkey : String
  Gossip : String
deriving Repr, DecidableEq

/-- `gossip.PeerState`: the state of a peer as seen by the solana network. -/
structure PeerState where
  IP : String
  Pubkey : String
  LastSeenAtUTC : Int
  LastSeenActive : Bool
deriving Repr, DecidableEq

/-- `gossip.State`: the gossip view.  The `logger` and the `clusterRPC`
client are omitted; the RPC call's result is instead passed to `Refresh`
explicitly. -/
structure State where
  PeerStatesRefreshedAt : Int
  peerStatesByName : List (String × PeerState)
  configPeers : Peers
  activePubkey : String
  selfIP : String

/-- `nodeIP := strings.Split(*node.Gossip, ":")[0]`: the text before the
first `:` of the gossip endpoint (the whole string when there is no `:`;
`strings.Split` never returns an empty slice, so index 0 is safe). -/
def gossipHost (gossip : String) : String :=
  String.mk (gossip.data.takeWhile (fun c => c ≠ ':'))

/-- The hardcoded literal compared against each node's pubkey in
`State.Refresh` (`internal/gossip/state.go`, the line marked
`TODO: remove dirty hack while testing`). -/
def hardcodedActivePubkey : String :=
  "peNgUgnzs1jGogUPW8SThXMvzNpzKSNf3om78xVPAYx"

/-- The `PeerState` built for a matched node inside `State.Refresh`:
IP from the node's gossip host, pubkey from the node, last-seen stamped
with the current time, and the active flag compared — per the TODO-marked
dirty hack in the source — against the hardcoded literal instead of
`p.activePubkey`. -/
def nodePeerState (node : ClusterNode) (now : Int) : PeerState :=
  { IP := gossipHost node.Gossip
    LastSeenAtUTC := now
    Pubkey := node.Pubkey
    LastSeenActive := node.Pubkey = hardcodedActivePubkey }

/-- The node-matching loop of `State.Refresh`: walk the returned cluster
nodes, match each node's gossip host against the configured peer IPs, store
matched nodes in the accumulator map keyed by the configured peer's name,
and stop early once every configured peer has been matched
(`len(p.configPeers) == len(latestPeerStatesByName)`). -/
def refreshLoop (cfg : Peers) (now : Int) :
    List ClusterNode → List (String × PeerState) → List (String × PeerState)
  | [], acc => acc
  | node :: rest, acc =>
    -- if the peer is not the config, keep looking
    if ¬ (cfg.GetIPs.contains (gossipHost node.Gossip)) then
      refreshLoop cfg now rest acc
    else
      -- get the peer name from configPeers (first matching entry)
      match cfg.find? (fun np => np.2.IP = gossipHost node.Gossip) with
      | none => refreshLoop cfg now rest acc
      | some (peerName, _) =>
        if peerName = "" then
          -- "peer not found in config" warning path
          refreshLoop cfg now rest acc
        else if cfg.length = (insertAL acc peerName (nodePeerState node now)).length
        then insertAL acc peerName (nodePeerState node now)
        else refreshLoop cfg now rest (insertAL acc peerName (nodePeerState node now))

/-- `State.Refresh`: rebuild the observation map from the cluster RPC
result.  On an RPC error the map becomes empty; in every case the whole
map is replaced in a single assignment and `PeerStatesRefreshedAt` is set
to the current time.  The config-peer-absent check only logs warnings and
never changes the result. -/
def State.Refresh (s : State) (rpcResult : Except String (List ClusterNode))
    (now : Int) : State :=
  match rpcResult with
  | .error _ =>
    { s with peerStatesByName := [], PeerStatesRefreshedAt := now }
  | .ok clusterNodes =>
    let latest := refreshLoop s.configPeers now clusterNodes []
    { s with peerStatesByName := latest, PeerStatesRefreshedAt := now }

/-- `State.HasActivePeer`: true if any observation has `LastSeenActive`. -/
def State.HasActivePeer (s : State) : Bool :=
  s.peerStatesByName.any (fun np => np.2.LastSeenActive)

/-- `State.HasActivePeerInTheLast`: true if any observation has
`LastSeenActive` and was last seen within `duration` of `now`
(`time.Since(peer.LastSeenAtUTC) < duration`). -/
def State.HasActivePeerInTheLast (s : State) (now duration : Int) : Bool :=
  s.peerStatesByName.any
    (fun np => np.2.LastSeenActive && decide (now - np.2.LastSeenAtUTC < duration))

/-! ## C3: RPC failure leaves an empty map, advances the timestamp,
propagates no error -/

/-- C3.  When the cluster-directory RPC fails, `Refresh` (which is total —
the error is consumed, never returned) leaves an empty observation map,
still advances the refreshed-at timestamp to the current time, and
`HasActivePeer` on the result reports no active peer. -/
theorem refresh_rpc_failure (s : State) (e : String) (now : Int) :
    (s.Refresh (.error e) now).peerStatesByName = [] ∧
    (s.Refresh (.error e) now).PeerStatesRefreshedAt = now ∧
    (s.Refresh (.error e) now).HasActivePeer = false := by
  refine ⟨rfl, rfl, ?_⟩
  simp [State.Refresh, State.HasActivePeer]

/-! ## C4: every refresh replaces the whole map; no carry-over -/

/-- C4.  `Refresh` updates the refreshed-at timestamp on every call, and
the post-refresh observation map is built only from the current RPC
result: changing the pre-refresh map to anything else (in particular, any
map holding observations from earlier refreshes) leaves the post-refresh
map unchanged, so no earlier observation survives. -/
theorem refresh_replaces_whole_map (s : State)
    (m : List (String × PeerState)) (r : Except String (List ClusterNode))
    (now : Int) :
    (s.Refresh r now).PeerStatesRefreshedAt = now ∧
    ({ s with peerStatesByName := m }.Refresh r now).peerStatesByName =
      (s.Refresh r now).peerStatesByName := by
  cases r with
  | error e => exact ⟨rfl, rfl⟩
  | ok nodes => exact ⟨rfl, rfl⟩

/-! ## C5: `HasActivePeerInTheLast` characterisation -/

/-- C5.  `HasActivePeerInTheLast d` is true exactly when some observation
in the current map has `LastSeenActive = true` and was last seen strictly
less than `d` before `now`; with no such observation it is false. -/
theorem hasActivePeerInTheLast_iff (s : State) (now d : Int) :
    s.HasActivePeerInTheLast now d = true ↔
      ∃ np ∈ s.peerStatesByName,
        np.2.LastSeenActive = true ∧ now - np.2.LastSeenAtUTC < d := by
  simp [State.HasActivePeerInTheLast, List.any_eq_true]

/-! ## Soundness of the matching loop (shared by several claims) -/

/-- Every entry of the matching loop's result either was already in the
accumulator, or records one of the input nodes — matched by gossip host
against a configured peer's IP — under that configured peer's (non-empty)
name, with the observation's fields copied from the node. -/
theorem refreshLoop_entry_sound (cfg : Peers) (now : Int)
    (nodes : List ClusterNode) (acc : List (String × PeerState))
    {n : String} {st : PeerState}
    (h : (n, st) ∈ refreshLoop cfg now nodes acc) :
    (n, st) ∈ acc ∨
      (n ≠ "" ∧
       (∃ node ∈ nodes, st = nodePeerState node now) ∧
       ∃ p, (n, p) ∈ cfg ∧ st.IP = p.IP) := by
  induction nodes generalizing acc with
  | nil => exact Or.inl h
  | cons node rest ih =>
    rw [refreshLoop] at h
    split at h
    · -- host not among the configured IPs: node ignored
      rcases ih acc h with h' | ⟨h1, ⟨nd, hnd, h2⟩, h3⟩
      · exact Or.inl h'
      · exact Or.inr ⟨h1, ⟨nd, List.mem_cons_of_mem _ hnd, h2⟩, h3⟩
    · split at h
      · -- find? returned none: node ignored
        rcases ih acc h with h' | ⟨h1, ⟨nd, hnd, h2⟩, h3⟩
        · exact Or.inl h'
        · exact Or.inr ⟨h1, ⟨nd, List.mem_cons_of_mem _ hnd, h2⟩, h3⟩
      · rename_i pn pp hfind
        have hppmem : (pn, pp) ∈ cfg := List.mem_of_find?_eq_some hfind
        have hppip : pp.IP = gossipHost node.Gossip := by
          have := List.find?_some hfind
          simpa using this
        split at h
        · -- empty peer name: node ignored ("peer not found in config")
          rcases ih acc h with h' | ⟨h1, ⟨nd, hnd, h2⟩, h3⟩
          · exact Or.inl h'
          · exact Or.inr ⟨h1, ⟨nd, List.mem_cons_of_mem _ hnd, h2⟩, h3⟩
        · rename_i hpn
          have hgood : ∀ {n' : String} {st' : PeerState},
              (n', st') ∈ insertAL acc pn (nodePeerState node now) →
              (n', st') ∈ acc ∨
                (n' ≠ "" ∧
                 (∃ nd ∈ node :: rest, st' = nodePeerState nd now) ∧
                 ∃ p, (n', p) ∈ cfg ∧ st'.IP = p.IP) := by
            intro n' st' hmem
            rcases mem_insertAL hmem with heq | hmem'
            · have hn' : n' = pn := congrArg Prod.fst heq
              have hst' : st' = nodePeerState node now :=
                congrArg Prod.snd heq
              refine Or.inr ⟨hn' ▸ hpn, ⟨node, List.mem_cons_self _ _, hst'⟩,
                ⟨pp, hn' ▸ hppmem, ?_⟩⟩
              rw [hst', hppip]; rfl
            · exact Or.inl hmem'
          split at h
          · -- all configured peers matched: early break returns the map
            exact hgood h
          · rcases ih (insertAL acc pn (nodePeerState node now)) h with
              h' | ⟨h1, ⟨nd, hnd, h2⟩, h3⟩
            · exact hgood h'
            · exact Or.inr ⟨h1, ⟨nd, List.mem_cons_of_mem _ hnd, h2⟩, h3⟩

/-- When the early break fires, the accumulator — whose keys are distinct
and all drawn from the configured peer names — has as many entries as the
config, hence covers every configured name. -/
theorem keys_cover_of_length_eq (cfg : Peers)
    (hnames : (cfg.map Prod.fst).Nodup)
    (acc : List (String × PeerState))
    (hkeys : (acc.map Prod.fst).Nodup)
    (hsub : ∀ e ∈ acc, ∃ p, (e.1, p) ∈ cfg)
    (hlen : cfg.length = acc.length)
    {n : String} (hn : n ∈ cfg.map Prod.fst) :
    ∃ st, (n, st) ∈ acc := by
  have hsubset : (acc.map Prod.fst).toFinset ⊆ (cfg.map Prod.fst).toFinset := by
    intro x hx
    rw [List.mem_toFinset] at hx ⊢
    rcases List.mem_map.1 hx with ⟨e, he, rfl⟩
    rcases hsub e he with ⟨p, hp⟩
    exact List.mem_map_of_mem Prod.fst hp
  have hcard : (cfg.map Prod.fst).toFinset.card ≤
      (acc.map Prod.fst).toFinset.card := by
    rw [List.toFinset_card_of_nodup hkeys, List.toFinset_card_of_nodup hnames,
      List.length_map, List.length_map, hlen]
  have heq := Finset.eq_of_subset_of_card_le hsubset hcard
  have hnacc : n ∈ acc.map Prod.fst := by
    rw [← List.mem_toFinset, heq, List.mem_toFinset]
    exact hn
  rcases List.mem_map.1 hnacc with ⟨⟨n', st⟩, he, hfst⟩
  exact ⟨st, by simpa [show n' = n from hfst] using he⟩

/-- Completeness of the matching loop under a well-formed config (distinct
peer names, distinct peer IPs): every configured peer with a non-empty name
that is already properly recorded in the accumulator or whose IP equals the
gossip host of one of the remaining nodes ends up in the result map, under
its name, with its configured IP.  The early break preserves this because
it fires only when every configured peer is already present. -/
theorem refreshLoop_complete (cfg : Peers) (now : Int)
    (hnames : (cfg.map Prod.fst).Nodup)
    (hips : (cfg.map (fun np => np.2.IP)).Nodup)
    (nodes : List ClusterNode) (acc : List (String × PeerState))
    (hkeys : (acc.map Prod.fst).Nodup)
    (hgoodacc : ∀ e ∈ acc, e.1 ≠ "" ∧ ∃ p, (e.1, p) ∈ cfg ∧ e.2.IP = p.IP)
    (n : String) (p : Peer) (hmem : (n, p) ∈ cfg) (hn : n ≠ "")
    (hreach : (∃ st, (n, st) ∈ acc ∧ st.IP = p.IP) ∨
              ∃ node ∈ nodes, gossipHost node.Gossip = p.IP) :
    ∃ st, (n, st) ∈ refreshLoop cfg now nodes acc ∧ st.IP = p.IP := by
  induction nodes generalizing acc with
  | nil =>
    rcases hreach with h | ⟨node, hnode, _⟩
    · simpa [refreshLoop] using h
    · cases hnode
  | cons node rest ih =>
    rw [refreshLoop]
    split
    · -- host not among the configured IPs: cannot be this node's match
      rename_i hc
      refine ih acc hkeys hgoodacc ?_
      rcases hreach with h | ⟨nd, hnd, hip⟩
      · exact Or.inl h
      · rcases List.mem_cons.1 hnd with rfl | hnd'
        · have hmemip : gossipHost nd.Gossip ∈ cfg.GetIPs := by
            rw [hip]
            exact List.mem_map_of_mem _ hmem
          exact absurd (List.elem_eq_true_of_mem hmemip) hc
        · exact Or.inr ⟨nd, hnd', hip⟩
    · split
      · -- find? none: no configured peer has this host, so not the match
        rename_i hfind
        refine ih acc hkeys hgoodacc ?_
        rcases hreach with h | ⟨nd, hnd, hip⟩
        · exact Or.inl h
        · rcases List.mem_cons.1 hnd with rfl | hnd'
          · exact absurd (by simpa using List.find?_eq_none.1 hfind _ hmem) (by
              simp [hip])
          · exact Or.inr ⟨nd, hnd', hip⟩
      · rename_i pn pp hfind
        have hppmem : (pn, pp) ∈ cfg := List.mem_of_find?_eq_some hfind
        have hppip : pp.IP = gossipHost node.Gossip := by
          have := List.find?_some hfind
          simpa using this
        split
        · -- matched a configured peer with an empty name: skipped
          rename_i hpn
          refine ih acc hkeys hgoodacc ?_
          rcases hreach with h | ⟨nd, hnd, hip⟩
          · exact Or.inl h
          · rcases List.mem_cons.1 hnd with rfl | hnd'
            · have heqp : (pn, pp) = (n, p) :=
                List.inj_on_of_nodup_map hips hppmem hmem (by rw [hppip, hip])
              injection heqp with h1 h2
              exact absurd (h1 ▸ hpn) hn
            · exact Or.inr ⟨nd, hnd', hip⟩
        · rename_i hpn
          have hkeys2 :
              (((insertAL acc pn (nodePeerState node now))).map Prod.fst).Nodup :=
            keys_nodup_insertAL pn _ hkeys
          have hgood2 : ∀ e ∈ insertAL acc pn (nodePeerState node now),
              e.1 ≠ "" ∧ ∃ p', (e.1, p') ∈ cfg ∧ e.2.IP = p'.IP := by
            intro e he
            rcases mem_insertAL he with rfl | he'
            · exact ⟨hpn, pp, hppmem, hppip.symm⟩
            · exact hgoodacc e he'
          have hreach2 :
              (∃ st, (n, st) ∈ insertAL acc pn (nodePeerState node now) ∧
                st.IP = p.IP) ∨
              ∃ nd ∈ rest, gossipHost nd.Gossip = p.IP := by
            rcases hreach with ⟨st, hst, hstip⟩ | ⟨nd, hnd, hip⟩
            · by_cases hnpn : n = pn
              · subst hnpn
                have hppp : pp = p := by
                  have : (n, pp) = (n, p) :=
                    List.inj_on_of_nodup_map hnames hppmem hmem rfl
                  exact congrArg Prod.snd this
                exact Or.inl ⟨nodePeerState node now,
                  mem_insertAL_self acc n _, by
                    rw [← hppp]; exact hppip.symm⟩
              · exact Or.inl ⟨st, mem_insertAL_of_mem_ne hnpn hst, hstip⟩
            · rcases List.mem_cons.1 hnd with rfl | hnd'
              · have heqp : (pn, pp) = (n, p) :=
                  List.inj_on_of_nodup_map hips hppmem hmem (by rw [hppip, hip])
                have hnpn : pn = n := congrArg Prod.fst heqp
                have hppp : pp = p := congrArg Prod.snd heqp
                exact Or.inl ⟨nodePeerState nd now, by
                    rw [← hnpn]; exact mem_insertAL_self acc pn _, by
                    rw [← hppp]; exact hppip.symm⟩
              · exact Or.inr ⟨nd, hnd', hip⟩
          split
          · -- early break: the accumulator already covers every peer
            rename_i hlen
            rcases keys_cover_of_length_eq cfg hnames _ hkeys2
                (fun e he => (hgood2 e he).2.imp (fun _ h => h.1)) hlen
                (List.mem_map_of_mem Prod.fst hmem) with ⟨st, hst⟩
            rcases (hgood2 (n, st) hst).2 with ⟨p', hp'mem, hp'ip⟩
            have heqp : (n, p') = (n, p) :=
              List.inj_on_of_nodup_map hnames hp'mem hmem rfl
            injection heqp with h1 h2
            exact ⟨st, hst, (show st.IP = p'.IP from hp'ip).trans (by rw [h2])⟩
          · exact ih _ hkeys2 hgood2 hreach2

/-! ## C2: the matching policy of `Refresh` -/

/-- C2.  On a successful RPC response, `Refresh` (i) stores only matched
nodes: every observation in the result is the `PeerState` built from some
returned node whose gossip host (the text before the first `:`) equals the
IP of a configured peer, and it is keyed by that peer's name with that
peer's IP — so unmatched nodes never enter the map; (ii) every configured
peer (with a non-empty name) whose IP is the gossip host of some returned
node is recorded under its name; and (iii) a configured peer absent from
the response only draws a warning: the refresh still completes and stamps
the refresh time.  Hypotheses: the configured peers have pairwise distinct
names and pairwise distinct IPs (they form a Go map keyed by name, and the
IP → name lookup presumes a unique owner per IP). -/
theorem refresh_matching_policy (s : State) (nodes : List ClusterNode)
    (now : Int)
    (hnames : (s.configPeers.map Prod.fst).Nodup)
    (hips : (s.configPeers.map (fun np => np.2.IP)).Nodup) :
    (∀ e ∈ (s.Refresh (.ok nodes) now).peerStatesByName,
       (∃ node ∈ nodes, e.2 = nodePeerState node now ∧
          gossipHost node.Gossip = e.2.IP) ∧
       ∃ p, (e.1, p) ∈ s.configPeers ∧ e.2.IP = p.IP) ∧
    (∀ n p, (n, p) ∈ s.configPeers → n ≠ "" →
       (∃ node ∈ nodes, gossipHost node.Gossip = p.IP) →
       ∃ st, (n, st) ∈ (s.Refresh (.ok nodes) now).peerStatesByName ∧
         st.IP = p.IP) ∧
    (s.Refresh (.ok nodes) now).PeerStatesRefreshedAt = now := by
  refine ⟨?_, ?_, rfl⟩
  · rintro ⟨n, st⟩ he
    have he' : (n, st) ∈ refreshLoop s.configPeers now nodes [] := he
    rcases refreshLoop_entry_sound _ _ _ _ he' with h | ⟨_, ⟨nd, hnd, hst⟩, hp⟩
    · cases h
    · exact ⟨⟨nd, hnd, hst, by rw [hst]; rfl⟩, hp⟩
  · intro n p hmem hn hex
    exact refreshLoop_complete s.configPeers now hnames hips nodes []
      (by simp) (fun e he => absurd he (List.not_mem_nil e)) n p hmem hn
      (Or.inr hex)

/-- Fixture for the matching policy: two configured peers; one node matches
the second peer, another node is unmatched. -/
def sampleState : State :=
  { PeerStatesRefreshedAt := 0
    peerStatesByName := []
    configPeers := [("alpha", { Name := "alpha", IP := "10.0.0.1" }),
                    ("beta", { Name := "beta", IP := "10.0.0.2" })]
    activePubkey := "PKactive"
    selfIP := "10.0.0.1" }

/-- Cluster nodes for the matching-policy fixture. -/
def sampleNodes : List ClusterNode :=
  [{ Pubkey := "PKx", Gossip := "10.0.0.2:8000" },
   { Pubkey := "PKy", Gossip := "8.8.8.8:8000" }]

/-- C2 witness: the matching policy instantiated on the concrete fixture,
with both distinctness hypotheses discharged by computation. -/
theorem refresh_matching_policy_witness :
    (∀ e ∈ (sampleState.Refresh (.ok sampleNodes) 0).peerStatesByName,
       (∃ node ∈ sampleNodes, e.2 = nodePeerState node 0 ∧
          gossipHost node.Gossip = e.2.IP) ∧
       ∃ p, (e.1, p) ∈ sampleState.configPeers ∧ e.2.IP = p.IP) ∧
    (∀ n p, (n, p) ∈ sampleState.configPeers → n ≠ "" →
       (∃ node ∈ sampleNodes, gossipHost node.Gossip = p.IP) →
       ∃ st, (n, st) ∈ (sampleState.Refresh (.ok sampleNodes) 0).peerStatesByName ∧
         st.IP = p.IP) ∧
    (sampleState.Refresh (.ok sampleNodes) 0).PeerStatesRefreshedAt = 0 :=
  refresh_matching_policy sampleState sampleNodes 0 (by decide) (by decide)

/-! ## C9: observation keys are configured peer names with matching IPs -/

/-- C9.  After every refresh, each entry of the observation map is keyed by
the name of a configured peer and its stored observation has an IP equal to
that configured peer's IP; no entry is ever stored under a name outside the
configured peer set. -/
theorem refresh_keys_are_configured_peers (s : State)
    (r : Except String (List ClusterNode)) (now : Int)
    (n : String) (st : PeerState)
    (h : (n, st) ∈ (s.Refresh r now).peerStatesByName) :
    ∃ p, (n, p) ∈ s.configPeers ∧ st.IP = p.IP := by
  cases r with
  | error e => simp [State.Refresh] at h
  | ok nodes =>
    have h' : (n, st) ∈ refreshLoop s.configPeers now nodes [] := h
    rcases refreshLoop_entry_sound s.configPeers now nodes [] h' with
      hmem | ⟨_, _, hp⟩
    · cases hmem
    · exact hp

/-! ## C1: the active flag is compared against a hardcoded literal -/

/-- Fixture exhibiting the active-pubkey bug: one configured peer whose
cluster node reports exactly the configured active pubkey. -/
def bugState : State :=
  { PeerStatesRefreshedAt := 0
    peerStatesByName := []
    configPeers := [("peer1", { Name := "peer1", IP := "10.0.0.1" })]
    activePubkey := "4ZJhPQAgUseCsWhKvJLTmmRRUV74fdoTpQLNfKoekbPY"
    selfIP := "10.0.0.2" }

/-- A cluster node at the configured peer's IP, reporting exactly the
configured active pubkey. -/
def bugNode : ClusterNode :=
  { Pubkey := "4ZJhPQAgUseCsWhKvJLTmmRRUV74fdoTpQLNfKoekbPY"
    Gossip := "10.0.0.1:8001" }

/-- C1.  The code contradicts the claim: a matched node whose pubkey equals
the configured active pubkey is recorded with `LastSeenActive = false`,
because `Refresh` compares the pubkey against the hardcoded literal
`hardcodedActivePubkey` instead of the configured `activePubkey`. -/
theorem refresh_active_flag_ignores_configured_pubkey :
    bugNode.Pubkey = bugState.activePubkey ∧
    bugNode.Pubkey ≠ hardcodedActivePubkey ∧
    (bugState.Refresh (.ok [bugNode]) 0).peerStatesByName =
      [("peer1",
        { IP := "10.0.0.1"
          Pubkey := "4ZJhPQAgUseCsWhKvJLTmmRRUV74fdoTpQLNfKoekbPY"
          LastSeenAtUTC := 0
          LastSeenActive := false })] := by
  refine ⟨rfl, by decide, ?_⟩
  decide

/-! ## Witness fixtures evaluated by concrete computation -/

/-- C9 witness: the theorem applied to the bug fixture's concrete refresh. -/
theorem refresh_keys_are_configured_peers_witness :
    ∃ p, ("peer1", p) ∈ bugState.configPeers ∧
      (PeerState.mk "10.0.0.1" "4ZJhPQAgUseCsWhKvJLTmmRRUV74fdoTpQLNfKoekbPY"
        0 false).IP = p.IP :=
  refresh_keys_are_configured_peers bugState (.ok [bugNode]) 0 "peer1"
    (PeerState.mk "10.0.0.1" "4ZJhPQAgUseCsWhKvJLTmmRRUV74fdoTpQLNfKoekbPY"
      0 false)
    (by decide)

/-! ## `internal/config/validator.go`: public-IP discovery -/

/-- `strings.Split(bodyStr, "\n")[0]`: the first line of the body (the
whole string when it has no newline). -/
def firstLine (s : String) : String :=
  String.mk (s.data.takeWhile (fun c => c ≠ '\n'))

/-- `strings.TrimSpace`: drop leading and trailing whitespace (Go trims
Unicode white space; modelled with `Char.isWhitespace`). -/
def trimSpace (s : String) : String :=
  String.mk
    (((s.data.dropWhile Char.isWhitespace).reverse.dropWhile
      Char.isWhitespace).reverse)

/-- `strings.Trim(s, cutset)` with a one-character cutset: drop every
leading and trailing occurrence of that character. -/
def trimChar (c : Char) (s : String) : String :=
  String.mk
    (((s.data.dropWhile (fun d => d = c)).reverse.dropWhile
      (fun d => d = c)).reverse)

/-- The body post-processing in `Validator.PublicIP`: first line of the
response body, whitespace trimmed, then surrounding double quotes and then
single quotes stripped. -/
def sanitizeIP (body : String) : String :=
  trimChar '\x27' (trimChar '"' (trimSpace (firstLine body)))

/-- Decimal value of a digit run. -/
def fieldValue (s : List Char) : Nat :=
  s.foldl (fun n d => n * 10 + (d.toNat - 48)) 0

/-- One dotted-quad field as accepted by `net.ParseIP`: one to three
decimal digits, no leading zero (except `"0"` itself), value at most
255. -/
def validIPv4Field (s : List Char) : Bool :=
  decide (s ≠ []) && s.all Char.isDigit && decide (s.length ≤ 3) &&
    (decide (s.head? ≠ some '0') || decide (s.length = 1)) &&
    decide (fieldValue s ≤ 255)

/-- Split a character list on `.` (the separators themselves dropped,
empty fields kept). -/
def splitOnDot : List Char → List (List Char)
  | [] => [[]]
  | c :: rest =>
    if c = '.' then [] :: splitOnDot rest
    else
      match splitOnDot rest with
      | [] => [[c]]
      | f :: fs => (c :: f) :: fs

/-- `net.ParseIP(s) != nil && ip.To4() != nil`: `s` is a valid dotted-quad
IPv4 address — exactly four fields, each a valid octet.  (`net.ParseIP`
additionally accepts IPv6 literals, for which `To4()` is non-nil only in
the IPv4-mapped form; that path is outside the dotted-quad grammar modelled
here.) -/
def isValidIPv4 (s : String) : Bool :=
  decide ((splitOnDot s.data).length = 4) &&
    (splitOnDot s.data).all validIPv4Field

/-- `config.ValidatorIdentities`.  A loaded solana keypair is modelled by
its public key string — the only part of it this code consumes
(`PublicKey().String()`); `none` models a nil (not yet loaded) keypair
pointer. -/
structure ValidatorIdentities where
  ActiveKeyPairFile : String
  ActiveKeyPair : Option String
  PassiveKeyPairFile : String
  PassiveKeyPair : Option String
deriving Repr, DecidableEq

/-- `ValidatorIdentities.Validate`: an error exactly when the two loaded
public keys coincide.  The Go code dereferences both keypair pointers, so
it is only ever called with both loaded (`Validator.Validate` guards the
call); dereference is modelled by `Option.getD`. -/
def ValidatorIdentities.Validate (v : ValidatorIdentities) : Option String :=
  if v.ActiveKeyPair.getD "" = v.PassiveKeyPair.getD "" then
    some ("validator.identities.active and validator.identities.passive must be different: "
      ++ v.ActiveKeyPair.getD "")
  else none

/-- `config.Validator`: the local validator configuration. -/
structure Validator where
  Name : String
  RPCURL : String
  PublicIPServiceURLs : List String
  Identities : ValidatorIdentities
deriving Repr, DecidableEq

/-- The loop of `Validator.PublicIP` over the service URLs.  `httpGet`
models `http.Get` followed by `io.ReadAll`: `none` when either fails —
both failures are logged and make the loop continue identically. -/
def publicIPLoop (httpGet : String → Option String) :
    List String → Except String String
  | [] => .error "failed to get public IP from any public IP service URLs"
  | url :: rest =>
    match httpGet url with
    | none => publicIPLoop httpGet rest
    | some body =>
      if isValidIPv4 (sanitizeIP body) then .ok (sanitizeIP body)
      else publicIPLoop httpGet rest

/-- `Validator.PublicIP`: return the first sanitized, IPv4-valid candidate
produced by the configured service URLs, in order. -/
def Validator.PublicIP (v : Validator) (httpGet : String → Option String) :
    Except String String :=
  publicIPLoop httpGet v.PublicIPServiceURLs

/-- Whether a service URL yields an accepted candidate: its fetched body,
sanitized, is a valid IPv4 address. -/
def urlAccepted (httpGet : String → Option String) (url : String) : Bool :=
  match httpGet url with
  | none => false
  | some body => isValidIPv4 (sanitizeIP body)

/-! ## C6: public-IP discovery takes the first valid candidate in order -/

/-- C6.  `Validator.PublicIP` is exactly "first match wins over the URLs in
configured order": it returns the sanitized candidate of the first URL
whose response sanitizes to a valid IPv4 address, and an error (carrying no
IP) when no URL yields one. -/
theorem publicIP_first_accepted (v : Validator)
    (httpGet : String → Option String) :
    v.PublicIP httpGet =
      match v.PublicIPServiceURLs.find? (urlAccepted httpGet) with
      | some url => .ok (sanitizeIP ((httpGet url).getD ""))
      | none => .error "failed to get public IP from any public IP service URLs" := by
  show publicIPLoop httpGet v.PublicIPServiceURLs = _
  induction v.PublicIPServiceURLs with
  | nil => rfl
  | cons url rest ih =>
    rw [publicIPLoop, List.find?]
    cases hg : httpGet url with
    | none =>
      have : urlAccepted httpGet url = false := by simp [urlAccepted, hg]
      rw [this, ih]
    | some body =>
      by_cases hvld : isValidIPv4 (sanitizeIP body) = true
      · have ha : urlAccepted httpGet url = true := by
          simp [urlAccepted, hg, hvld]
        rw [ha]
        show (if isValidIPv4 (sanitizeIP body) = true then
            Except.ok (sanitizeIP body)
          else publicIPLoop httpGet rest) =
          Except.ok (sanitizeIP ((httpGet url).getD ""))
        rw [if_pos hvld, hg]
        rfl
      · have ha : urlAccepted httpGet url = false := by
          simp only [urlAccepted, hg]
          exact Bool.eq_false_iff.2 hvld
        rw [ha]
        show (if isValidIPv4 (sanitizeIP body) = true then
            Except.ok (sanitizeIP body)
          else publicIPLoop httpGet rest) = _
        rw [if_neg hvld, ih]

/-! ## C7: identity validation errors exactly on equal pubkeys -/

/-- C7.  With both keypairs loaded, `ValidatorIdentities.Validate` returns
an error exactly when the active public key equals the passive public key;
with distinct public keys it returns no error. -/
theorem identities_validate_iff (v : ValidatorIdentities) (a p : String)
    (ha : v.ActiveKeyPair = some a) (hp : v.PassiveKeyPair = some p) :
    (v.Validate.isSome = true ↔ a = p) ∧ (a ≠ p → v.Validate = none) := by
  constructor
  · constructor
    · intro h
      by_contra hne
      rw [ValidatorIdentities.Validate, ha, hp] at h
      simp [hne] at h
    · intro h
      rw [ValidatorIdentities.Validate, ha, hp]
      simp [h]
  · intro h
    rw [ValidatorIdentities.Validate, ha, hp]
    simp [h]

/-- C7 witness: a concrete identity pair with distinct public keys
validates without error, and `isSome` matches key equality. -/
theorem identities_validate_iff_witness :
    (((ValidatorIdentities.mk "active.json" (some "PKA") "passive.json"
        (some "PKB")).Validate.isSome = true ↔ ("PKA" : String) = "PKB") ∧
      (("PKA" : String) ≠ "PKB" →
        (ValidatorIdentities.mk "active.json" (some "PKA") "passive.json"
          (some "PKB")).Validate = none)) :=
  identities_validate_iff
    (ValidatorIdentities.mk "active.json" (some "PKA") "passive.json"
      (some "PKB")) "PKA" "PKB" rfl rfl

/-! ## `Validator.Validate` and its URL checks -/

/-- Scheme extraction, modelled from `net/url.Parse`: the text before the
first `:`, accepted when it is a letter followed by letters, digits, `+`,
`-` or `.`; a URL without such a prefix (or without any `:`) has an empty
scheme. -/
def urlScheme (s : String) : String :=
  let pre := s.data.takeWhile (fun c => c ≠ ':')
  if pre.length = s.data.length then ""
  else
    match pre with
    | [] => ""
    | c :: rest =>
      if c.isAlpha &&
          rest.all (fun d => d.isAlpha || d.isDigit || d = '+' || d = '-' || d = '.')
      then String.mk (c :: rest)
      else ""

/-- The remainder of the URL after its scheme and `:` (the whole string
when there is no scheme). -/
def urlRest (s : String) : List Char :=
  if urlScheme s = "" then s.data
  else s.data.drop ((urlScheme s).length + 1)

/-- Host extraction, modelled from `net/url.Parse`: for
`scheme://authority/...` the authority runs up to the next `/`, `?` or `#`
and the host (including any port, as in Go's `URL.Host`) is the part after
the last `@`; a URL without `//` has no host. -/
def urlHost (s : String) : String :=
  match urlRest s with
  | '/' :: '/' :: rest =>
    let authority := rest.takeWhile (fun c => c ≠ '/' ∧ c ≠ '?' ∧ c ≠ '#')
    String.mk ((authority.reverse.takeWhile (fun c => c ≠ '@')).reverse)
  | _ => ""

/-- The URL acceptance test of `Validator.Validate`: `url.Parse` succeeds
with a non-empty scheme and host.  `url.Parse`'s own hard errors (control
characters, malformed escapes) and the explicit
`Scheme == "" || Host == ""` check both produce a validation error, so the
model folds them into a single validity predicate. -/
def isValidURL (s : String) : Bool :=
  decide (urlScheme s ≠ "") && decide (urlHost s ≠ "")

/-- `Validator.Validate`: the name must be defined, `rpc_url` and every
public-IP service URL must be valid URLs, and the identity pair is
validated only when both keypairs have been loaded. -/
def Validator.Validate (v : Validator) : Option String :=
  if v.Name = "" then some "validator.name must be defined"
  else if v.RPCURL = "" then some "validator.rpc_url must be a valid URL"
  else if ¬ isValidURL v.RPCURL then
    some ("validator.rpc_url must be a valid URL: invalid URL " ++ v.RPCURL)
  else
    match v.PublicIPServiceURLs.find? (fun u => !(isValidURL u)) with
    | some u =>
      some ("validator.public_ip_service_urls must be a valid URL: invalid URL " ++ u)
    | none =>
      -- Only validate identities if they have been loaded
      if v.Identities.ActiveKeyPair.isSome && v.Identities.PassiveKeyPair.isSome
      then v.Identities.Validate
      else none

/-! ## C10: unloaded keypairs skip the identity check -/

/-- C10.  `Validator.Validate` checks the identity pair only when both
keypairs are loaded: any configuration with a non-empty name, a valid
`rpc_url`, valid public-IP service URLs and nil (unloaded) keypairs
validates without error — the active-equals-passive constraint is never
examined. -/
theorem validate_skips_unloaded_identities (v : Validator)
    (hname : v.Name ≠ "")
    (hrpc : isValidURL v.RPCURL = true)
    (hurls : ∀ u ∈ v.PublicIPServiceURLs, isValidURL u = true)
    (hact : v.Identities.ActiveKeyPair = none)
    (_hpas : v.Identities.PassiveKeyPair = none) :
    v.Validate = none := by
  have hne : v.RPCURL ≠ "" := by
    intro h
    rw [h] at hrpc
    exact absurd hrpc (by decide)
  have hfind : v.PublicIPServiceURLs.find? (fun u => !(isValidURL u)) = none :=
    List.find?_eq_none.2 (fun u hu => by simp [hurls u hu])
  rw [Validator.Validate, if_neg hname, if_neg hne,
    if_neg (by rw [hrpc]; exact not_not_intro rfl), hfind]
  simp [hact]

/-- C10 witness: a concrete configuration with unloaded keypairs passes
validation, both URL hypotheses evaluated by computation. -/
theorem validate_skips_unloaded_identities_witness :
    (Validator.mk "test-validator" "http://localhost:8899"
      ["https://api.ipify.org"]
      (ValidatorIdentities.mk "active.json" none "passive.json" none)).Validate
      = none :=
  validate_skips_unloaded_identities
    (Validator.mk "test-validator" "http://localhost:8899"
      ["https://api.ipify.org"]
      (ValidatorIdentities.mk "active.json" none "passive.json" none))
    (by decide) (by decide) (by decide) rfl rfl

/-! ## Role command templates (modelled from the spec)

The source file defining `Role`, `RoleCommandTemplateData` and
`RenderCommands` is not among the provided sources — only its test file
is.  The definitions below are modelled from the spec: role and hook
commands/args are Go `text/template` strings over a fixed closed set of
variables, rendered once at startup; referencing a variable outside that
set is a startup-time rendering error. -/

/-- Modelled from the spec: a Go `text/template` string after parsing — a
sequence of literal runs and `{{.Name}}` variable references. -/
inductive TemplatePart where
  | lit (s : String)
  | var (name : String)
deriving Repr, DecidableEq

/-- A parsed command or argument template. -/
abbrev Template := List TemplatePart

/-- Modelled from the spec: the closed set of template variables
(`ActiveIdentityKeypairFile`, `ActiveIdentityPubkey`,
`PassiveIdentityKeypairFile`, `PassiveIdentityPubkey`). -/
def allowedTemplateVariables : List String :=
  ["ActiveIdentityKeypairFile", "ActiveIdentityPubkey",
   "PassiveIdentityKeypairFile", "PassiveIdentityPubkey"]

/-- `config.RoleCommandTemplateData`: the fixed struct of template data
(its shape is visible in `role_test.go`). -/
structure RoleCommandTemplateData where
  ActiveIdentityKeypairFile : String
  ActiveIdentityPubkey : String
  PassiveIdentityKeypairFile : String
  PassiveIdentityPubkey : String
deriving Repr, DecidableEq

/-- Variable lookup during rendering: exactly the four struct fields; any
other name is a missing variable (Go `text/template` fails executing a
reference to a field the data struct does not have). -/
def lookupTemplateVar (d : RoleCommandTemplateData) : String → Option String
  | "ActiveIdentityKeypairFile" => some d.ActiveIdentityKeypairFile
  | "ActiveIdentityPubkey" => some d.ActiveIdentityPubkey
  | "PassiveIdentityKeypairFile" => some d.PassiveIdentityKeypairFile
  | "PassiveIdentityPubkey" => some d.PassiveIdentityPubkey
  | _ => none

/-- Modelled from the spec: rendering substitutes each variable reference;
a reference outside the fixed variable set fails with a
`failed to execute command template` error. -/
def renderTemplate (d : RoleCommandTemplateData) :
    Template → Except String String
  | [] => .ok ""
  | .lit s :: rest => (renderTemplate d rest).map (fun r => s ++ r)
  | .var v :: rest =>
    match lookupTemplateVar d v with
    | none =>
      .error ("failed to execute command template: can't evaluate field " ++ v)
    | some s => (renderTemplate d rest).map (fun r => s ++ r)

/-- Render a list of templates, stopping at the first failure. -/
def renderTemplates (d : RoleCommandTemplateData) :
    List Template → Except String (List String)
  | [] => .ok []
  | t :: ts =>
    match renderTemplate d t with
    | .error e => .error e
    | .ok s => (renderTemplates d ts).map (fun rest => s :: rest)

/-- `config.Hook`: a named hook command (its args and `must_succeed` flag
do not affect rendering of the command template). -/
structure Hook where
  Name : String
  Command : Template
  Args : List Template
  MustSucceed : Bool

/-- `config.Hooks`: ordered pre and post hook lists. -/
structure Hooks where
  Pre : List Hook
  Post : List Hook

/-- `config.Role`: a role's command, args and hooks, pre-rendering. -/
structure Role where
  Command : Template
  Args : List Template
  Hooks : Hooks

/-- The outcome of a successful `RenderCommands`: every template of the
role resolved to a plain string. -/
structure RenderedRole where
  Command : String
  Args : List String
  PreHookCommands : List String
  PostHookCommands : List String

/-- Modelled from the spec: `Role.RenderCommands` renders the role command,
its args, and every pre/post hook command at startup; the first failure
aborts with a `failed to render role.command and role.args` error. -/
def Role.RenderCommands (r : Role) (d : RoleCommandTemplateData) :
    Except String RenderedRole :=
  match renderTemplate d r.Command with
  | .error e => .error ("failed to render role.command and role.args: " ++ e)
  | .ok cmd =>
    match renderTemplates d r.Args with
    | .error e => .error ("failed to render role.command and role.args: " ++ e)
    | .ok args =>
      match renderTemplates d (r.Hooks.Pre.map Hook.Command) with
      | .error e => .error ("failed to render role.command and role.args: " ++ e)
      | .ok pre =>
        match renderTemplates d (r.Hooks.Post.map Hook.Command) with
        | .error e =>
          .error ("failed to render role.command and role.args: " ++ e)
        | .ok post =>
          .ok { Command := cmd, Args := args, PreHookCommands := pre
                PostHookCommands := post }

theorem lookupTemplateVar_eq_none (d : RoleCommandTemplateData) (v : String)
    (hv : v ∉ allowedTemplateVariables) : lookupTemplateVar d v = none := by
  by_cases h1 : v = "ActiveIdentityKeypairFile"
  · exact absurd (by rw [h1]; simp [allowedTemplateVariables]) hv
  by_cases h2 : v = "ActiveIdentityPubkey"
  · exact absurd (by rw [h2]; simp [allowedTemplateVariables]) hv
  by_cases h3 : v = "PassiveIdentityKeypairFile"
  · exact absurd (by rw [h3]; simp [allowedTemplateVariables]) hv
  by_cases h4 : v = "PassiveIdentityPubkey"
  · exact absurd (by rw [h4]; simp [allowedTemplateVariables]) hv
  simp [lookupTemplateVar, h1, h2, h3, h4]

theorem renderTemplate_error_of_unknown_var (d : RoleCommandTemplateData)
    (t : Template) (v : String) (hv : v ∉ allowedTemplateVariables)
    (hin : TemplatePart.var v ∈ t) :
    ∃ e, renderTemplate d t = .error e := by
  induction t with
  | nil => cases hin
  | cons part rest ih =>
    rcases List.mem_cons.1 hin with rfl | hin'
    · rw [renderTemplate, lookupTemplateVar_eq_none d v hv]
      exact ⟨_, rfl⟩
    · cases part with
      | lit s =>
        rcases ih hin' with ⟨e, he⟩
        exact ⟨e, by rw [renderTemplate, he]; rfl⟩
      | var w =>
        rw [renderTemplate]
        cases hl : lookupTemplateVar d w with
        | none => exact ⟨_, rfl⟩
        | some s =>
          rcases ih hin' with ⟨e, he⟩
          exact ⟨e, by rw [he]; rfl⟩

theorem renderTemplates_error_of_unknown_var (d : RoleCommandTemplateData)
    (ts : List Template) (t : Template) (v : String)
    (hv : v ∉ allowedTemplateVariables) (ht : t ∈ ts)
    (hin : TemplatePart.var v ∈ t) :
    ∃ e, renderTemplates d ts = .error e := by
  induction ts with
  | nil => cases ht
  | cons t0 rest ih =>
    rcases List.mem_cons.1 ht with heq | ht'
    · rcases renderTemplate_error_of_unknown_var d t v hv hin with ⟨e, he⟩
      exact ⟨e, by rw [renderTemplates, ← heq, he]⟩
    · rw [renderTemplates]
      cases h0 : renderTemplate d t0 with
      | error e => exact ⟨e, rfl⟩
      | ok s =>
        rcases ih ht' with ⟨e, he⟩
        exact ⟨e, by rw [he]; rfl⟩

/-! ## C8: referencing an unknown template variable fails rendering -/

/-- C8.  Rendering a role whose command template or one of whose argument
templates references a variable outside the fixed four-variable set makes
`RenderCommands` return a rendering error at startup — it never silently
substitutes or leaves the command unchanged. -/
theorem renderCommands_unknown_variable_errors (r : Role)
    (d : RoleCommandTemplateData) (v : String)
    (hv : v ∉ allowedTemplateVariables)
    (hin : TemplatePart.var v ∈ r.Command ∨
           ∃ t ∈ r.Args, TemplatePart.var v ∈ t) :
    ∃ e, r.RenderCommands d = .error e := by
  rcases hin with hcmd | ⟨t, ht, harg⟩
  · rcases renderTemplate_error_of_unknown_var d r.Command v hv hcmd with ⟨e, he⟩
    exact ⟨_, by rw [Role.RenderCommands, he]⟩
  · rw [Role.RenderCommands]
    cases hc : renderTemplate d r.Command with
    | error e => exact ⟨_, rfl⟩
    | ok cmd =>
      rcases renderTemplates_error_of_unknown_var d r.Args t v hv ht harg with
        ⟨e, he⟩
      exact ⟨_, by rw [he]⟩

/-- C8 witness: the invalid-template test case of `role_test.go` — a
command `systemctl {{.InvalidField}}` — fails rendering on concrete data. -/
theorem renderCommands_unknown_variable_errors_witness :
    ∃ e, (Role.mk [TemplatePart.lit "systemctl ",
        TemplatePart.var "InvalidField"] [] (Hooks.mk [] [])).RenderCommands
      (RoleCommandTemplateData.mk "/path/to/active.json" "active-pubkey"
        "" "") = .error e :=
  renderCommands_unknown_variable_errors
    (Role.mk [TemplatePart.lit "systemctl ", TemplatePart.var "InvalidField"]
      [] (Hooks.mk [] []))
    (RoleCommandTemplateData.mk "/path/to/active.json" "active-pubkey" "" "")
    "InvalidField" (by decide)
    (Or.inl (by decide))

end SolanaValidatorHA
